import Mathlib

/-! A shallow embedding of the jump-selection and traceback logic of the `stitch`
multi-contig aligner, covering `src/lib/align/aligners/multi_contig_aligner.rs`
and `src/lib/align/traceback/mod.rs`.  Machine integers (`i32`, `u32`, `usize`)
are modelled as `Int`/`Nat`; none of the embedded code paths overflow their
machine widths on the inputs the theorems quantify over.  Rust panics
(`assert!`, out-of-bounds indexing) are modelled by `Option`-valued functions
returning `none`.
-/

set_option linter.unusedVariables false

namespace Stitch

/-- Modelled from the spec: `MIN_SCORE` from `aligners/constants.rs` (a file
not under `src/`): "A sentinel MIN_SCORE (large negative, safe from overflow
when added to bounded gap penalties) denotes impossible".  The claims below
use it only as an opaque initial value of the traceback start-cell scan, so
any representative large negative value serves. -/
def MIN_SCORE : Int := -(2 ^ 30)

/-- The alignment operations (`AlignmentOperation` in `aligners/constants.rs`,
as used by `traceback`): edit operations, the two clips, and the jump, which
records the contig the walker was on and the row it left from. -/
inductive AlignmentOperation : Type where
  | Match : AlignmentOperation
  | Subst : AlignmentOperation
  | Ins : AlignmentOperation
  | Del : AlignmentOperation
  | Xclip : Nat → AlignmentOperation
  | Yclip : Nat → AlignmentOperation
  | Xjump : Nat → Nat → AlignmentOperation
deriving DecidableEq, Repr

/-- The S-layer record of a traceback cell (`SValue` in `traceback/mod.rs`):
predecessor tag, run length, source contig and source row of a jump. -/
structure SValue : Type where
  tb : Nat
  len : Nat
  idx : Nat
  from_ : Nat
deriving DecidableEq, Repr

/-- One traceback cell: the (tag, run length) records of the I and D layers
and the full S-layer record.  This is the interface `TracebackCell` exposes
through `get_i`/`get_d`/`get_s`; the packed layout is a memory optimisation
invisible to `traceback`. -/
structure TracebackCell : Type where
  iTb : Nat
  iLen : Nat
  dTb : Nat
  dLen : Nat
  s : SValue
deriving DecidableEq, Repr

/-- Traceback tag constants from `traceback/mod.rs` (`TB_START` .. `TB_XJUMP`). -/
def TB_START : Nat := 0

/-- Tag of an insertion predecessor. -/
def TB_INS : Nat := 1

/-- Tag of a deletion predecessor. -/
def TB_DEL : Nat := 2

/-- Tag of a substitution predecessor. -/
def TB_SUBST : Nat := 3

/-- Tag of a match predecessor. -/
def TB_MATCH : Nat := 4

/-- Tag of a prefix clip of x. -/
def TB_XCLIP_PREFIX : Nat := 5

/-- Tag of a suffix clip of x. -/
def TB_XCLIP_SUFFIX : Nat := 6

/-- Tag of a prefix clip of y. -/
def TB_YCLIP_PREFIX : Nat := 7

/-- Tag of a suffix clip of y. -/
def TB_YCLIP_SUFFIX : Nat := 8

/-- Tag of a jump. -/
def TB_XJUMP : Nat := 9

/-- The view of a `SingleContigAligner` that `traceback` (`traceback/mod.rs`)
reads: its `contig_idx`, the traceback matrix row count (`m + 1`), the rolling
S score columns `S[col][i]`, the suffix-clip length tables `Lx`/`Ly`, and the
traceback matrix `cell i j`.  `traceback` only reads these, so the matrices
are modelled as total functions; how `fill_column` (in
`single_contig_aligner.rs`, not under `src/`) produced them is irrelevant to
the claims below, which quantify over every such state. -/
structure SingleContigAligner : Type where
  contig_idx : Nat
  rows : Nat
  S : Nat → Nat → Int
  Lx : Nat → Nat
  Ly : Nat → Nat
  cell : Nat → Nat → TracebackCell

/-- The result record (`Alignment` in `alignment.rs`), restricted to the
fields `traceback` fills; `mode` is always `Custom` and is omitted. -/
structure Alignment : Type where
  score : Int
  xstart : Nat
  xend : Nat
  ystart : Nat
  yend : Nat
  xlen : Nat
  ylen : Nat
  contig_idx : Nat
  operations : List AlignmentOperation
  length : Nat
deriving DecidableEq, Repr

/-- One update of the start-cell scan of `traceback` (`mod.rs` lines 140-156):
the running best `(aligner_idx, score, alignment_length)` is replaced by
contig `k` exactly when `k`'s corner score `S[n % 2][m]` is strictly greater,
or equal with a strictly greater stored S-layer run length at cell `(m, n)`. -/
def startScanStep (n : Nat) (best : Nat × Int × Nat) (k : Nat)
    (al : SingleContigAligner) : Nat × Int × Nat :=
  let m := al.rows - 1
  let curScore := al.S (n % 2) m
  let curLen := (al.cell m n).s.len
  if curScore > best.2.1 ∨ (curScore = best.2.1 ∧ curLen > best.2.2) then
    (k, curScore, curLen)
  else best

/-- The start-cell scan loop of `traceback`, with `k` the index of the first
aligner of the remaining list. -/
def startScanGo (n : Nat) (k : Nat) (best : Nat × Int × Nat) :
    List SingleContigAligner → Nat × Int × Nat
  | [] => best
  | al :: rest => startScanGo n (k + 1) (startScanStep n best k al) rest

/-- Start-cell selection of `traceback` (`mod.rs` lines 137-156): fold the
scan over all aligners starting from `(0, MIN_SCORE, 0)`. -/
def selectStart (aligners : List SingleContigAligner) (n : Nat) :
    Nat × Int × Nat :=
  startScanGo n 0 (0, MIN_SCORE, 0) aligners

/-- The start-cell selection as the specification words it: contig 0 is the
initial pick, and a later contig replaces the pick exactly when its
`(score, length)` pair is lexicographically strictly greater; on full ties the
lowest-indexed contig is kept. -/
def selectStartSpec (aligners : List SingleContigAligner) (n : Nat) :
    Nat × Int × Nat :=
  match aligners with
  | [] => (0, MIN_SCORE, 0)
  | a :: rest =>
    startScanGo n 1 (0, a.S (n % 2) (a.rows - 1), (a.cell (a.rows - 1) n).s.len) rest

/-- The walker state of `traceback`'s main loop: current contig, position
`(i, j)`, the layer tag being dispatched on, the operations pushed so far (in
push order, i.e. reverse path order), and the four clip boundaries. -/
structure WalkState : Type where
  curContigIdx : Nat
  i : Nat
  j : Nat
  lastLayer : Nat
  operations : List AlignmentOperation
  xstart : Nat
  ystart : Nat
  xend : Nat
  yend : Nat
deriving DecidableEq, Repr

/-- Result of one iteration of the walker loop: the loop breaks (`TB_START`),
continues with a new state, or panics (unknown tag, index out of bounds). -/
inductive StepResult : Type where
  | done : WalkState → StepResult
  | next : WalkState → StepResult
  | fail : StepResult
deriving DecidableEq, Repr

/-- The gate of the `TB_XCLIP_SUFFIX` arm (`mod.rs` lines 206-208): the
operations pushed so far are empty, or the first pushed one is a `Yclip`. -/
def xclipSuffixGate (operations : List AlignmentOperation) : Bool :=
  match operations.head? with
  | none => true
  | some (AlignmentOperation.Yclip _) => true
  | some _ => false

/-- One iteration of the walker loop of `traceback` (`mod.rs` lines 164-243),
dispatching on `last_layer`.  Rust's indexing panic on a bad contig index is
`StepResult.fail`, as is the `panic!` on an unknown tag. -/
def tracebackStep (aligners : List SingleContigAligner) (s : WalkState) :
    StepResult :=
  match aligners[s.curContigIdx]? with
  | none => StepResult.fail
  | some cur =>
    if s.lastLayer = TB_START then
      StepResult.done s
    else if s.lastLayer = TB_INS then
      StepResult.next { s with
        operations := s.operations ++ [AlignmentOperation.Ins],
        lastLayer := (cur.cell s.i s.j).iTb,
        i := s.i - 1 }
    else if s.lastLayer = TB_DEL then
      StepResult.next { s with
        operations := s.operations ++ [AlignmentOperation.Del],
        lastLayer := (cur.cell s.i s.j).dTb,
        j := s.j - 1 }
    else if s.lastLayer = TB_MATCH ∨ s.lastLayer = TB_SUBST then
      let op := if s.lastLayer = TB_MATCH then AlignmentOperation.Match
                else AlignmentOperation.Subst
      let sv := (cur.cell s.i s.j).s
      if sv.idx ≠ s.curContigIdx ∨ sv.from_ ≠ s.i - 1 then
        match aligners[sv.idx]? with
        | none => StepResult.fail
        | some nxt =>
          StepResult.next { s with
            operations := s.operations ++
              [op, AlignmentOperation.Xjump s.curContigIdx (s.i - 1)],
            curContigIdx := sv.idx,
            i := sv.from_,
            j := s.j - 1,
            lastLayer := (nxt.cell sv.from_ (s.j - 1)).s.tb }
      else
        StepResult.next { s with
          operations := s.operations ++ [op],
          i := sv.from_,
          j := s.j - 1,
          lastLayer := (cur.cell sv.from_ (s.j - 1)).s.tb }
    else if s.lastLayer = TB_XCLIP_PREFIX then
      let nl := (cur.cell 0 s.j).s.tb
      if nl = TB_START ∨ nl = TB_YCLIP_PREFIX then
        StepResult.next { s with
          operations := s.operations ++ [AlignmentOperation.Xclip s.i],
          xstart := s.i,
          i := 0,
          lastLayer := nl }
      else
        StepResult.next { s with i := 0, lastLayer := nl }
    else if s.lastLayer = TB_XCLIP_SUFFIX then
      let lx := cur.Lx s.j
      if xclipSuffixGate s.operations then
        StepResult.next { s with
          operations := s.operations ++ [AlignmentOperation.Xclip lx],
          xend := s.i - lx,
          i := s.i - lx,
          lastLayer := (cur.cell (s.i - lx) s.j).s.tb }
      else
        StepResult.next { s with
          i := s.i - lx,
          lastLayer := (cur.cell (s.i - lx) s.j).s.tb }
    else if s.lastLayer = TB_YCLIP_PREFIX then
      StepResult.next { s with
        operations := s.operations ++ [AlignmentOperation.Yclip s.j],
        ystart := s.j,
        j := 0,
        lastLayer := (cur.cell s.i 0).s.tb }
    else if s.lastLayer = TB_YCLIP_SUFFIX then
      let ly := cur.Ly s.i
      let sFrom := (cur.cell s.i s.j).s.from_
      if sFrom ≠ s.i then
        StepResult.next { s with
          operations := s.operations ++
            [AlignmentOperation.Yclip ly, AlignmentOperation.Xjump s.curContigIdx s.i],
          i := sFrom,
          j := s.j - ly,
          yend := s.j - ly,
          lastLayer := (cur.cell sFrom (s.j - ly)).s.tb }
      else
        StepResult.next { s with
          operations := s.operations ++ [AlignmentOperation.Yclip ly],
          j := s.j - ly,
          yend := s.j - ly,
          lastLayer := (cur.cell s.i (s.j - ly)).s.tb }
    else if s.lastLayer = TB_XJUMP then
      let sv := (cur.cell s.i s.j).s
      match aligners[sv.idx]? with
      | none => StepResult.fail
      | some nxt =>
        StepResult.next { s with
          operations := s.operations ++ [AlignmentOperation.Xjump s.curContigIdx s.i],
          curContigIdx := sv.idx,
          i := sv.from_,
          lastLayer := (nxt.cell sv.from_ s.j).s.tb }
    else StepResult.fail

/-- The walker loop, run with fuel (it terminates on `TB_START`; an adversarial
matrix could loop, which `traceback`'s callers rule out by construction). -/
def tracebackRun (aligners : List SingleContigAligner) :
    Nat → WalkState → Option WalkState
  | 0, _ => none
  | fuel + 1, s =>
    match tracebackStep aligners s with
    | StepResult.done s' => some s'
    | StepResult.next s' => tracebackRun aligners fuel s'
    | StepResult.fail => none

/-- The per-aligner entry assertion of `traceback` (`mod.rs` line 141):
position `k` in the slice holds the aligner whose `contig_idx` is `k`. -/
def contigIdxOrdered : Nat → List SingleContigAligner → Bool
  | _, [] => true
  | k, al :: rest => decide (al.contig_idx = k) && contigIdxOrdered (k + 1) rest

/-- The two entry assertions of `traceback` (`mod.rs` lines 135 and 141): the
aligner slice is non-empty and is ordered by `contig_idx`. -/
def tracebackChecks (aligners : List SingleContigAligner) : Bool :=
  !aligners.isEmpty && contigIdxOrdered 0 aligners

/-- Does the operation count toward nothing but bookkeeping?  Mirrors the
`matches!(op, Xclip(_) | Yclip(_) | Xjump(_, _))` test at `mod.rs` line 250. -/
def isClipOrJump (op : AlignmentOperation) : Bool :=
  match op with
  | AlignmentOperation.Xclip _ => true
  | AlignmentOperation.Yclip _ => true
  | AlignmentOperation.Xjump _ _ => true
  | _ => false

/-- The traceback entry point (`traceback` in `mod.rs`): assert the entry
conditions, select the start cell, walk, reverse the operations, zero the
clip boundaries of an empty alignment, and assemble the `Alignment`.
Panics (failed assertions, walker panics) and fuel exhaustion yield `none`. -/
def traceback (aligners : List SingleContigAligner) (n : Nat) (fuel : Nat) :
    Option Alignment :=
  if tracebackChecks aligners then
    let sel := selectStart aligners n
    match aligners[sel.1]? with
    | none => none
    | some startAligner =>
      let m := startAligner.rows - 1
      let s0 : WalkState := {
        curContigIdx := startAligner.contig_idx,
        i := m,
        j := n,
        lastLayer := (startAligner.cell m n).s.tb,
        operations := [],
        xstart := 0,
        ystart := 0,
        xend := m,
        yend := n }
      match tracebackRun aligners fuel s0 with
      | none => none
      | some w =>
        let ops := w.operations.reverse
        let empty := ops.all isClipOrJump
        some {
          score := sel.2.1,
          xstart := if empty then 0 else w.xstart,
          xend := if empty then 0 else w.xend,
          ystart := if empty then 0 else w.ystart,
          yend := if empty then 0 else w.yend,
          xlen := m,
          ylen := n,
          contig_idx := w.curContigIdx,
          operations := ops,
          length := sel.2.2 }
  else none

/-- The best-donor record returned by `get_jump_info` (`JumpInfo` in
`aligners/mod.rs`): the donor contig index, the donor cell's S-layer run
length, the donor row, and the jump score. -/
structure JumpInfo : Type where
  idx : Nat
  len : Nat
  from_ : Nat
  score : Int
deriving DecidableEq, Repr

/-- The per-contig data `MultiContigAligner` holds (`ContigAligner` plus the
parts of its `SingleContigAligner` that the jump selection in `custom` reads):
name, strand, `contig_idx`, sequence length, circularity, the three jump
scores of its scoring, and its `get_jump_info` routine.  The body of
`get_jump_info` lives in `single_contig_aligner.rs` (not under `src/`), and
`custom` treats it as a black box `(m, j - 1, jump_score) ↦ JumpInfo`, so it
is a function field here and the theorems below hold for every value of it. -/
structure ContigAligner : Type where
  name : String
  is_forward : Bool
  contig_idx : Nat
  seqLen : Nat
  circular : Bool
  jump_score_same_contig_and_strand : Int
  jump_score_same_contig_opposite_strand : Int
  jump_score_inter_contig : Int
  getJumpInfo : Nat → Nat → Int → JumpInfo

instance : Inhabited ContigAligner :=
  ⟨{ name := "",
     is_forward := true,
     contig_idx := 0,
     seqLen := 0,
     circular := false,
     jump_score_same_contig_and_strand := 0,
     jump_score_same_contig_opposite_strand := 0,
     jump_score_inter_contig := 0,
     getJumpInfo := fun _ _ _ => { idx := 0, len := 0, from_ := 0, score := 0 } }⟩

/-- The `MultiContigAligner` state: the contig vector and the two name-to-index
maps, one per strand.  The Rust `HashMap`s are modelled as association lists
looked up by first match; `insert` conses, which observes the same lookup
behaviour (the newest binding for a name wins). -/
structure MultiContigAligner : Type where
  contigs : List ContigAligner
  name_to_forward : List (String × Nat)
  name_to_revcomp : List (String × Nat)

/-- Lookup in the association-list model of a name map. -/
def mapLookup : List (String × Nat) → String → Option Nat
  | [], _ => none
  | (k, v) :: rest, nm => if k = nm then some v else mapLookup rest nm

/-- Mirrors `MultiContigAligner::hashmap_for_strand`. -/
def hashmapForStrand (a : MultiContigAligner) (is_forward : Bool) :
    List (String × Nat) :=
  if is_forward then a.name_to_forward else a.name_to_revcomp

/-- Mirrors `MultiContigAligner::new`. -/
def MultiContigAligner.new : MultiContigAligner :=
  { contigs := [], name_to_forward := [], name_to_revcomp := [] }

/-- The arguments of one `add_contig` call (the sequence itself is irrelevant
to the claims, only its length is kept; the scoring is kept through its jump
scores and the `get_jump_info` behaviour it induces). -/
structure AddContigRequest : Type where
  name : String
  is_forward : Bool
  seqLen : Nat
  circular : Bool
  jump_score_same_contig_and_strand : Int
  jump_score_same_contig_opposite_strand : Int
  jump_score_inter_contig : Int
  getJumpInfo : Nat → Nat → Int → JumpInfo

/-- The contig record `ContigAligner::new` builds for a request, with
`set_contig_idx(contig_idx)` applied. -/
def contigOfRequest (r : AddContigRequest) (contig_idx : Nat) : ContigAligner :=
  { name := r.name,
    is_forward := r.is_forward,
    contig_idx := contig_idx,
    seqLen := r.seqLen,
    circular := r.circular,
    jump_score_same_contig_and_strand := r.jump_score_same_contig_and_strand,
    jump_score_same_contig_opposite_strand := r.jump_score_same_contig_opposite_strand,
    jump_score_inter_contig := r.jump_score_inter_contig,
    getJumpInfo := r.getJumpInfo }

/-- The effect of `hashmap_for_strand_mut(is_forward).insert(name, idx)`:
prepend the binding to the association-list model of the map of that strand. -/
def registerName (a : MultiContigAligner) (is_forward : Bool) (nm : String)
    (idx : Nat) : MultiContigAligner :=
  if is_forward then { a with name_to_forward := (nm, idx) :: a.name_to_forward }
  else { a with name_to_revcomp := (nm, idx) :: a.name_to_revcomp }

/-- Mirrors `MultiContigAligner::add_contig` (`multi_contig_aligner.rs` lines
88-113): the `assert!` that `(name, is_forward)` is not yet registered is
modelled by returning `none`; otherwise the contig is appended with
`contig_idx = contigs.len()` and its name is registered in the map of its
strand. -/
def addContig (a : MultiContigAligner) (r : AddContigRequest) :
    Option MultiContigAligner :=
  if (mapLookup (hashmapForStrand a r.is_forward) r.name).isSome then none
  else
    some (registerName
      { a with contigs := a.contigs ++ [contigOfRequest r a.contigs.length] }
      r.is_forward r.name a.contigs.length)

/-- A sequence of `add_contig` calls on an aligner; the first failure
propagates. -/
def addAll (a : MultiContigAligner) : List AddContigRequest → Option MultiContigAligner
  | [] => some a
  | r :: rest =>
    match addContig a r with
    | none => none
    | some a' => addAll a' rest

/-- Mirrors `MultiContigAligner::jump_info_for_contig`: the Same candidate for
contig `c` at column `j`. -/
def jumpInfoForContig (c : ContigAligner) (j : Nat) : JumpInfo :=
  c.getJumpInfo c.seqLen (j - 1) c.jump_score_same_contig_and_strand

/-- Mirrors `MultiContigAligner::jump_info_for_opposite_strand`: the Flip
candidate, present exactly when the twin index is, computed from the twin's
column under the opposite-strand jump score with `idx` overwritten by the
twin's `contig_idx`.  Rust's panicking index `self.contigs[idx]` is modelled
with a default on the out-of-range case, which the well-formedness invariant
below excludes. -/
def jumpInfoForOppositeStrand (a : MultiContigAligner) (oppContigIdx : Option Nat)
    (j : Nat) : Option JumpInfo :=
  oppContigIdx.map fun idx =>
    let opp := a.contigs.getD idx default
    let info := opp.getJumpInfo opp.seqLen (j - 1)
      opp.jump_score_same_contig_opposite_strand
    { info with idx := opp.contig_idx }

/-- The lexicographic `(score, len)` comparison used by
`max_by_key(|c| (c.score, c.len))`. -/
def keyLe (x y : Int × Nat) : Prop :=
  x.1 < y.1 ∨ (x.1 = y.1 ∧ x.2 ≤ y.2)

instance (x y : Int × Nat) : Decidable (keyLe x y) := by
  unfold keyLe; infer_instance

/-- The key `(score, len)` of a candidate. -/
def jumpKey (c : JumpInfo) : Int × Nat := (c.score, c.len)

/-- One fold step of Rust's `Iterator::max_by_key`: the accumulator is
replaced whenever the new element's key is greater or equal, so the last
maximal element wins. -/
def jumpMaxStep (acc x : JumpInfo) : JumpInfo :=
  if keyLe (jumpKey acc) (jumpKey x) then x else acc

/-- Rust's `max_by_key(|c| (c.score, c.len))` over a list of candidates. -/
def maxByScoreLen (infos : List JumpInfo) : Option JumpInfo :=
  match infos with
  | [] => none
  | c :: rest => some (rest.foldl jumpMaxStep c)

/-- Mirrors `MultiContigAligner::jump_info_for_inter_contig`: drop the
candidates stamped with the contig's own index or its twin's (the twin index
defaulting to the contig's own when absent), then take the `(score, len)`
maximum. -/
def jumpInfoForInterContig (c : ContigAligner) (interContigJumpInfos : List JumpInfo)
    (oppContigIdx : Option Nat) : Option JumpInfo :=
  let opp := oppContigIdx.getD c.contig_idx
  maxByScoreLen (interContigJumpInfos.filter fun info =>
    info.idx != c.contig_idx && info.idx != opp)

/-- Mirrors the precomputation in `custom` (`multi_contig_aligner.rs` lines
177-190): every contig's `get_jump_info` under the inter-contig jump score,
stamped with the contig's own index. -/
def interContigJumpInfos (a : MultiContigAligner) (j : Nat) : List JumpInfo :=
  a.contigs.map fun c =>
    let info := c.getJumpInfo c.seqLen (j - 1) c.jump_score_inter_contig
    { info with idx := c.contig_idx }

/-- The twin lookup in `custom` (`multi_contig_aligner.rs` lines 196-199):
the index registered for this contig's name on the opposite strand. -/
def oppContigIdxFor (a : MultiContigAligner) (c : ContigAligner) : Option Nat :=
  mapLookup (hashmapForStrand a (!c.is_forward)) c.name

/-- The jump selection in `custom` (`multi_contig_aligner.rs` lines 214-226):
start from the Same candidate, replace it by the Flip candidate only on a
strictly greater score, then by the Inter candidate only on a strictly
greater score. -/
def bestJumpInfo (same : JumpInfo) (flip inter : Option JumpInfo) : JumpInfo :=
  let b1 :=
    match flip with
    | some info => if info.score > same.score then info else same
    | none => same
  match inter with
  | some info => if info.score > b1.score then info else b1
  | none => b1

/-- The jump `custom` chooses for contig `c` at column `j`: the loop body of
`multi_contig_aligner.rs` lines 194-227. -/
def bestJumpInfoFor (a : MultiContigAligner) (c : ContigAligner) (j : Nat) :
    JumpInfo :=
  let opp := oppContigIdxFor a c
  bestJumpInfo (jumpInfoForContig c j)
    (jumpInfoForOppositeStrand a opp j)
    (jumpInfoForInterContig c (interContigJumpInfos a j) opp)

/-- The selection policy as the specification words it: the chosen jump is the
candidate of maximal score, and on equal scores Same is preferred over Flip
and Flip over Inter, so a candidate displaces a preferred one only by a
strictly greater score. -/
def tieBreakSpec (same : JumpInfo) (flip inter : Option JumpInfo) : JumpInfo :=
  match flip, inter with
  | none, none => same
  | some f, none => if same.score < f.score then f else same
  | none, some t => if same.score < t.score then t else same
  | some f, some t =>
    if max same.score f.score < t.score then t
    else if same.score < f.score then f
    else same

/-- The name maps of a `MultiContigAligner` are in sync with its contig
vector: every registered contig's name is present in the map of its strand,
and every map entry points at a contig carrying that name and strand. -/
def WellFormed (a : MultiContigAligner) : Prop :=
  (∀ c ∈ a.contigs,
    (mapLookup (hashmapForStrand a c.is_forward) c.name).isSome = true) ∧
  (∀ fwd nm idx, mapLookup (hashmapForStrand a fwd) nm = some idx →
    ∃ c, a.contigs[idx]? = some c ∧ c.name = nm ∧ c.is_forward = fwd)

/-- No two registered contigs share the `(name, is_forward)` key. -/
def uniqueKeys (contigs : List ContigAligner) : Prop :=
  contigs.Pairwise fun c d => ¬(c.name = d.name ∧ c.is_forward = d.is_forward)

/-- The `contig_idx` values are contiguous from 0 and equal insertion order. -/
def idxContiguous (a : MultiContigAligner) : Prop :=
  ∀ k, k < a.contigs.length →
    ∃ c, a.contigs[k]? = some c ∧ c.contig_idx = k

/-! ## Helper lemmas -/

theorem bestJumpInfo_eq_tieBreakSpec (same : JumpInfo) (flip inter : Option JumpInfo) :
    bestJumpInfo same flip inter = tieBreakSpec same flip inter := by
  cases flip with
  | none =>
    cases inter with
    | none => rfl
    | some t =>
      simp only [bestJumpInfo, tieBreakSpec, gt_iff_lt]
  | some f =>
    cases inter with
    | none =>
      simp only [bestJumpInfo, tieBreakSpec, gt_iff_lt]
    | some t =>
      simp only [bestJumpInfo, tieBreakSpec, gt_iff_lt]
      rcases lt_or_le same.score f.score with hf | hf
      · rw [if_pos hf, max_eq_right (le_of_lt hf)]
      · rw [if_neg (not_lt.mpr hf), max_eq_left hf]

/-! ## The claims -/

/-- C1: for every aligner state, contig and column, the jump `custom` chooses
is computed by starting from the Same candidate, replacing it with the Flip
candidate only on a strictly greater score, then with the Inter candidate only
on a strictly greater score; consequently the chosen jump maximises the score
and on equal scores Same is preferred over Flip over Inter, which is what
`tieBreakSpec` states. -/
theorem custom_prefers_same_then_flip_then_inter (a : MultiContigAligner)
    (c : ContigAligner) (j : Nat) :
    bestJumpInfoFor a c j =
      tieBreakSpec (jumpInfoForContig c j)
        (jumpInfoForOppositeStrand a (oppContigIdxFor a c) j)
        (jumpInfoForInterContig c (interContigJumpInfos a j) (oppContigIdxFor a c)) :=
  bestJumpInfo_eq_tieBreakSpec _ _ _

/-- C2: provided contig 0's corner score is not below the `MIN_SCORE`
sentinel the scan is seeded with (every real score is), the start-cell
selection of `traceback` equals the specification's scan: pick the contig
maximising `(corner score, stored length)` lexicographically, a later contig
replacing the pick only when strictly greater, so full ties keep the
lowest-indexed contig. -/
theorem traceback_start_cell_selection (a : SingleContigAligner)
    (rest : List SingleContigAligner) (n : Nat)
    (h : MIN_SCORE ≤ a.S (n % 2) (a.rows - 1)) :
    selectStart (a :: rest) n = selectStartSpec (a :: rest) n := by
  have hstep : startScanStep n (0, MIN_SCORE, 0) 0 a =
      (0, a.S (n % 2) (a.rows - 1), (a.cell (a.rows - 1) n).s.len) := by
    unfold startScanStep
    simp only
    split_ifs with h1
    · rfl
    · push_neg at h1
      obtain ⟨h2, h3⟩ := h1
      have hs : a.S (n % 2) (a.rows - 1) = MIN_SCORE := le_antisymm h2 h
      have hl : (a.cell (a.rows - 1) n).s.len = 0 := by
        have := h3 hs
        omega
      rw [hs, hl]
  show startScanGo n 1 (startScanStep n (0, MIN_SCORE, 0) 0 a) rest =
    selectStartSpec (a :: rest) n
  rw [hstep]
  rfl

/-- A concrete aligner used by witnesses: one contig of length 2, every score
5, every stored length 1. -/
def demoAligner : SingleContigAligner :=
  { contig_idx := 0,
    rows := 3,
    S := fun _ _ => 5,
    Lx := fun _ => 1,
    Ly := fun _ => 1,
    cell := fun _ _ =>
      { iTb := 1, iLen := 1, dTb := 2, dLen := 1,
        s := { tb := 4, len := 1, idx := 0, from_ := 1 } } }

/-- Witness for C2 at a concrete one-contig state. -/
theorem traceback_start_cell_selection_witness :
    selectStart [demoAligner] 2 = selectStartSpec [demoAligner] 2 :=
  traceback_start_cell_selection demoAligner [] 2 (by decide)

/-- C4: in state `YCLIP_SUFFIX` at `(i, j)` the walker pushes
`Yclip(Ly[i])`; exactly when the S-record's `from` differs from `i` it also
pushes `Xjump(cur_contig, i)` and moves `i` to `from`; it decreases `j` by
`Ly[i]` (the clip length read at the entry row `i`, the same amount the
emitted Yclip records), records the resulting `j` in `yend`, stays on the
same contig, and re-reads the S-layer tag at the new `(i, j)` before the next
dispatch. -/
theorem walker_yclip_suffix_arm (aligners : List SingleContigAligner)
    (s : WalkState) (cur : SingleContigAligner)
    (hcur : aligners[s.curContigIdx]? = some cur)
    (hlayer : s.lastLayer = TB_YCLIP_SUFFIX)
    (hj : cur.Ly s.i ≤ s.j) :
    ∃ s', tracebackStep aligners s = StepResult.next s' ∧
      s'.operations = s.operations ++ [AlignmentOperation.Yclip (cur.Ly s.i)] ++
        (if (cur.cell s.i s.j).s.from_ ≠ s.i then
          [AlignmentOperation.Xjump s.curContigIdx s.i] else []) ∧
      s'.i = (if (cur.cell s.i s.j).s.from_ ≠ s.i then (cur.cell s.i s.j).s.from_
        else s.i) ∧
      s.j = s'.j + cur.Ly s.i ∧
      s'.yend = s'.j ∧
      s'.lastLayer = (cur.cell s'.i s'.j).s.tb ∧
      s'.curContigIdx = s.curContigIdx ∧
      s'.xstart = s.xstart ∧ s'.ystart = s.ystart ∧ s'.xend = s.xend := by
  by_cases hfrom : (cur.cell s.i s.j).s.from_ = s.i
  · refine ⟨{ s with
      operations := s.operations ++ [AlignmentOperation.Yclip (cur.Ly s.i)],
      j := s.j - cur.Ly s.i,
      yend := s.j - cur.Ly s.i,
      lastLayer := (cur.cell s.i (s.j - cur.Ly s.i)).s.tb }, ?_, ?_, ?_, ?_, ?_, ?_, ?_, ?_, ?_, ?_⟩
    · unfold tracebackStep
      rw [hcur, hlayer]
      norm_num [TB_START, TB_INS, TB_DEL, TB_MATCH, TB_SUBST, TB_XCLIP_PREFIX,
        TB_XCLIP_SUFFIX, TB_YCLIP_PREFIX, TB_YCLIP_SUFFIX, TB_XJUMP, hfrom]
    · simp [hfrom]
    · simp [hfrom]
    · simp
      omega
    · rfl
    · simp [hfrom]
    · rfl
    · rfl
    · rfl
    · rfl
  · refine ⟨{ s with
      operations := s.operations ++ [AlignmentOperation.Yclip (cur.Ly s.i),
        AlignmentOperation.Xjump s.curContigIdx s.i],
      i := (cur.cell s.i s.j).s.from_,
      j := s.j - cur.Ly s.i,
      yend := s.j - cur.Ly s.i,
      lastLayer := (cur.cell ((cur.cell s.i s.j).s.from_) (s.j - cur.Ly s.i)).s.tb },
      ?_, ?_, ?_, ?_, ?_, ?_, ?_, ?_, ?_, ?_⟩
    · unfold tracebackStep
      rw [hcur, hlayer]
      norm_num [TB_START, TB_INS, TB_DEL, TB_MATCH, TB_SUBST, TB_XCLIP_PREFIX,
        TB_XCLIP_SUFFIX, TB_YCLIP_PREFIX, TB_YCLIP_SUFFIX, TB_XJUMP, hfrom]
    · simp [hfrom]
    · simp [hfrom]
    · simp
      omega
    · rfl
    · simp [hfrom]
    · rfl
    · rfl
    · rfl
    · rfl

theorem xclipSuffixGate_iff (ops : List AlignmentOperation) :
    xclipSuffixGate ops = true ↔
      (ops = [] ∨ ∃ l, ops.head? = some (AlignmentOperation.Yclip l)) := by
  cases ops with
  | nil => simp [xclipSuffixGate]
  | cons op rest => cases op <;> simp [xclipSuffixGate]

/-- C5: in state `XCLIP_SUFFIX` at `(i, j)` the walker pushes `Xclip(Lx[j])`
and records `xend = i - Lx[j]` exactly when the operations pushed so far are
empty or the first of them is a `Yclip`; in every case it decreases `i` by
`Lx[j]`, keeps `j`, the contig and the other boundaries, and re-reads the
S-layer tag at the new `(i, j)`. -/
theorem walker_xclip_suffix_arm (aligners : List SingleContigAligner)
    (s : WalkState) (cur : SingleContigAligner)
    (hcur : aligners[s.curContigIdx]? = some cur)
    (hlayer : s.lastLayer = TB_XCLIP_SUFFIX)
    (hi : cur.Lx s.j ≤ s.i) :
    ∃ s', tracebackStep aligners s = StepResult.next s' ∧
      (xclipSuffixGate s.operations = true ↔
        (s.operations = [] ∨
          ∃ l, s.operations.head? = some (AlignmentOperation.Yclip l))) ∧
      s'.operations = (if xclipSuffixGate s.operations then
        s.operations ++ [AlignmentOperation.Xclip (cur.Lx s.j)] else s.operations) ∧
      s'.xend = (if xclipSuffixGate s.operations then s.i - cur.Lx s.j else s.xend) ∧
      s.i = s'.i + cur.Lx s.j ∧
      s'.j = s.j ∧
      s'.lastLayer = (cur.cell s'.i s'.j).s.tb ∧
      s'.curContigIdx = s.curContigIdx ∧
      s'.xstart = s.xstart ∧ s'.ystart = s.ystart ∧ s'.yend = s.yend := by
  cases hg : xclipSuffixGate s.operations with
  | true =>
    refine ⟨{ s with
      operations := s.operations ++ [AlignmentOperation.Xclip (cur.Lx s.j)],
      xend := s.i - cur.Lx s.j,
      i := s.i - cur.Lx s.j,
      lastLayer := (cur.cell (s.i - cur.Lx s.j) s.j).s.tb },
      ?_, ?_, ?_, ?_, ?_, ?_, ?_, ?_, ?_, ?_, ?_⟩
    · unfold tracebackStep
      rw [hcur, hlayer]
      norm_num [TB_START, TB_INS, TB_DEL, TB_MATCH, TB_SUBST, TB_XCLIP_PREFIX,
        TB_XCLIP_SUFFIX, TB_YCLIP_PREFIX, TB_YCLIP_SUFFIX, TB_XJUMP, hg]
    · exact hg ▸ xclipSuffixGate_iff s.operations
    · simp [hg]
    · simp [hg]
    · simp
      omega
    · rfl
    · rfl
    · rfl
    · rfl
    · rfl
    · rfl
  | false =>
    refine ⟨{ s with
      i := s.i - cur.Lx s.j,
      lastLayer := (cur.cell (s.i - cur.Lx s.j) s.j).s.tb },
      ?_, ?_, ?_, ?_, ?_, ?_, ?_, ?_, ?_, ?_, ?_⟩
    · unfold tracebackStep
      rw [hcur, hlayer]
      norm_num [TB_START, TB_INS, TB_DEL, TB_MATCH, TB_SUBST, TB_XCLIP_PREFIX,
        TB_XCLIP_SUFFIX, TB_YCLIP_PREFIX, TB_YCLIP_SUFFIX, TB_XJUMP, hg]
    · exact hg ▸ xclipSuffixGate_iff s.operations
    · simp [hg]
    · simp [hg]
    · simp
      omega
    · rfl
    · rfl
    · rfl
    · rfl
    · rfl
    · rfl

/-- Concrete walker state entering the `YCLIP_SUFFIX` arm at `(2, 2)`. -/
def demoYState : WalkState :=
  { curContigIdx := 0, i := 2, j := 2, lastLayer := TB_YCLIP_SUFFIX,
    operations := [], xstart := 0, ystart := 0, xend := 2, yend := 2 }

/-- Witness for C4 at a concrete aligner and state. -/
theorem walker_yclip_suffix_arm_witness :
    ∃ s', tracebackStep [demoAligner] demoYState = StepResult.next s' ∧
      s'.operations = demoYState.operations ++
        [AlignmentOperation.Yclip (demoAligner.Ly demoYState.i)] ++
        (if (demoAligner.cell demoYState.i demoYState.j).s.from_ ≠ demoYState.i then
          [AlignmentOperation.Xjump demoYState.curContigIdx demoYState.i] else []) ∧
      s'.i = (if (demoAligner.cell demoYState.i demoYState.j).s.from_ ≠ demoYState.i
        then (demoAligner.cell demoYState.i demoYState.j).s.from_
        else demoYState.i) ∧
      demoYState.j = s'.j + demoAligner.Ly demoYState.i ∧
      s'.yend = s'.j ∧
      s'.lastLayer = (demoAligner.cell s'.i s'.j).s.tb ∧
      s'.curContigIdx = demoYState.curContigIdx ∧
      s'.xstart = demoYState.xstart ∧ s'.ystart = demoYState.ystart ∧
      s'.xend = demoYState.xend :=
  walker_yclip_suffix_arm [demoAligner] demoYState demoAligner rfl rfl (by decide)

/-- Concrete walker state entering the `XCLIP_SUFFIX` arm at `(2, 2)`. -/
def demoXState : WalkState :=
  { curContigIdx := 0, i := 2, j := 2, lastLayer := TB_XCLIP_SUFFIX,
    operations := [], xstart := 0, ystart := 0, xend := 2, yend := 2 }

/-- Witness for C5 at a concrete aligner and state. -/
theorem walker_xclip_suffix_arm_witness :
    ∃ s', tracebackStep [demoAligner] demoXState = StepResult.next s' ∧
      (xclipSuffixGate demoXState.operations = true ↔
        (demoXState.operations = [] ∨
          ∃ l, demoXState.operations.head? = some (AlignmentOperation.Yclip l))) ∧
      s'.operations = (if xclipSuffixGate demoXState.operations then
        demoXState.operations ++
          [AlignmentOperation.Xclip (demoAligner.Lx demoXState.j)]
        else demoXState.operations) ∧
      s'.xend = (if xclipSuffixGate demoXState.operations then
        demoXState.i - demoAligner.Lx demoXState.j else demoXState.xend) ∧
      demoXState.i = s'.i + demoAligner.Lx demoXState.j ∧
      s'.j = demoXState.j ∧
      s'.lastLayer = (demoAligner.cell s'.i s'.j).s.tb ∧
      s'.curContigIdx = demoXState.curContigIdx ∧
      s'.xstart = demoXState.xstart ∧ s'.ystart = demoXState.ystart ∧
      s'.yend = demoXState.yend :=
  walker_xclip_suffix_arm [demoAligner] demoXState demoAligner rfl rfl (by decide)

theorem keyLe_refl (x : Int × Nat) : keyLe x x := Or.inr ⟨rfl, le_refl _⟩

theorem keyLe_trans {x y z : Int × Nat} (h1 : keyLe x y) (h2 : keyLe y z) :
    keyLe x z := by
  unfold keyLe at *
  omega

theorem keyLe_total (x y : Int × Nat) : keyLe x y ∨ keyLe y x := by
  unfold keyLe
  omega

theorem foldl_jumpMax_eq_or_mem (l : List JumpInfo) (acc : JumpInfo) :
    l.foldl jumpMaxStep acc = acc ∨ l.foldl jumpMaxStep acc ∈ l := by
  induction l generalizing acc with
  | nil => exact Or.inl rfl
  | cons x xs ih =>
    simp only [List.foldl_cons]
    rcases ih (jumpMaxStep acc x) with h | h
    · rw [h]
      unfold jumpMaxStep
      split_ifs
      · exact Or.inr (List.mem_cons_self _ _)
      · exact Or.inl rfl
    · exact Or.inr (List.mem_cons_of_mem _ h)

theorem keyLe_acc_foldl (l : List JumpInfo) (acc : JumpInfo) :
    keyLe (jumpKey acc) (jumpKey (l.foldl jumpMaxStep acc)) := by
  induction l generalizing acc with
  | nil => exact keyLe_refl _
  | cons x xs ih =>
    simp only [List.foldl_cons]
    refine keyLe_trans ?_ (ih (jumpMaxStep acc x))
    unfold jumpMaxStep
    split_ifs with h
    · exact h
    · exact keyLe_refl _

theorem keyLe_mem_foldl (l : List JumpInfo) (acc : JumpInfo) (x : JumpInfo)
    (hx : x ∈ l) : keyLe (jumpKey x) (jumpKey (l.foldl jumpMaxStep acc)) := by
  induction l generalizing acc with
  | nil => cases hx
  | cons y ys ih =>
    simp only [List.foldl_cons]
    rcases List.mem_cons.mp hx with rfl | h
    · refine keyLe_trans ?_ (keyLe_acc_foldl ys (jumpMaxStep acc x))
      unfold jumpMaxStep
      split_ifs with h
      · exact keyLe_refl _
      · rcases keyLe_total (jumpKey x) (jumpKey acc) with h' | h'
        · exact h'
        · exact absurd h' h
    · exact ih (jumpMaxStep acc y) h

theorem maxByScoreLen_none_iff (l : List JumpInfo) :
    maxByScoreLen l = none ↔ l = [] := by
  cases l <;> simp [maxByScoreLen]

theorem maxByScoreLen_spec (l : List JumpInfo) (r : JumpInfo)
    (h : maxByScoreLen l = some r) :
    r ∈ l ∧ ∀ x ∈ l, keyLe (jumpKey x) (jumpKey r) := by
  cases l with
  | nil => cases h
  | cons c rest =>
    simp only [maxByScoreLen, Option.some.injEq] at h
    subst h
    constructor
    · rcases foldl_jumpMax_eq_or_mem rest c with h | h
      · rw [h]; exact List.mem_cons_self _ _
      · exact List.mem_cons_of_mem _ h
    · intro x hx
      rcases List.mem_cons.mp hx with rfl | hx
      · exact keyLe_acc_foldl rest x
      · exact keyLe_mem_foldl rest c x hx

/-- C6: for every contig `k`, candidate list and optional twin index, the
Inter candidate is a `(score, len)`-lexicographic maximum of the candidates
surviving the filter that drops `k`'s own index and the twin's (the twin index
defaulting to `k`'s own when the twin is absent, so then only `k` is
excluded); it is `none` exactly when no candidate survives. -/
theorem custom_inter_contig_candidate (c : ContigAligner) (infos : List JumpInfo)
    (oppContigIdx : Option Nat) :
    (jumpInfoForInterContig c infos oppContigIdx = none ↔
      infos.filter (fun info => info.idx != c.contig_idx &&
        info.idx != oppContigIdx.getD c.contig_idx) = []) ∧
    (∀ r, jumpInfoForInterContig c infos oppContigIdx = some r →
      r ∈ infos.filter (fun info => info.idx != c.contig_idx &&
        info.idx != oppContigIdx.getD c.contig_idx) ∧
      ∀ x ∈ infos.filter (fun info => info.idx != c.contig_idx &&
        info.idx != oppContigIdx.getD c.contig_idx),
        keyLe (jumpKey x) (jumpKey r)) ∧
    (oppContigIdx = none →
      infos.filter (fun info => info.idx != c.contig_idx &&
        info.idx != oppContigIdx.getD c.contig_idx) =
      infos.filter (fun info => info.idx != c.contig_idx)) := by
  refine ⟨?_, ?_, ?_⟩
  · unfold jumpInfoForInterContig
    exact maxByScoreLen_none_iff _
  · intro r hr
    unfold jumpInfoForInterContig at hr
    exact maxByScoreLen_spec _ r hr
  · rintro rfl
    simp [Option.getD]

/-- C7: under the map/contig synchronisation invariant, the Flip candidate of
contig `c` exists exactly when a twin contig with the same name and opposite
strand is registered (looked up in the name map of the opposite strand); when
the lookup yields `idx`, the candidate is the twin's `get_jump_info` at column
`j - 1` under the opposite-strand jump score with its `idx` field overwritten
by the twin's `contig_idx`. -/
theorem custom_flip_candidate (a : MultiContigAligner) (c : ContigAligner)
    (j : Nat) (hwf : WellFormed a) :
    (jumpInfoForOppositeStrand a (oppContigIdxFor a c) j = none ↔
      ¬ ∃ t ∈ a.contigs, t.name = c.name ∧ t.is_forward = (!c.is_forward)) ∧
    (∀ idx, oppContigIdxFor a c = some idx →
      ∃ twin, a.contigs[idx]? = some twin ∧
        twin.name = c.name ∧ twin.is_forward = (!c.is_forward) ∧
        jumpInfoForOppositeStrand a (oppContigIdxFor a c) j =
          some { twin.getJumpInfo twin.seqLen (j - 1)
              twin.jump_score_same_contig_opposite_strand with
            idx := twin.contig_idx }) := by
  have hflip : ∀ o : Option Nat,
      jumpInfoForOppositeStrand a o j = none ↔ o = none := by
    intro o
    cases o <;> simp [jumpInfoForOppositeStrand]
  constructor
  · rw [hflip]
    constructor
    · rintro hnone ⟨t, ht, hnm, hfw⟩
      have h1 := hwf.1 t ht
      rw [hnm, hfw] at h1
      unfold oppContigIdxFor at hnone
      rw [hnone] at h1
      simp at h1
    · intro hno
      cases ho : oppContigIdxFor a c with
      | none => rfl
      | some idx =>
        obtain ⟨t, hget, hnm, hfw⟩ := hwf.2 (!c.is_forward) c.name idx ho
        exact absurd ⟨t, List.getElem?_mem hget, hnm, hfw⟩ hno
  · intro idx ho
    obtain ⟨twin, hget, hnm, hfw⟩ := hwf.2 (!c.is_forward) c.name idx ho
    refine ⟨twin, hget, hnm, hfw, ?_⟩
    rw [ho]
    simp [jumpInfoForOppositeStrand, List.getD, hget]

/-- A forward demo contig named chr1. -/
def demoContigFwd : ContigAligner :=
  { name := "chr1", is_forward := true, contig_idx := 0, seqLen := 4,
    circular := false,
    jump_score_same_contig_and_strand := -1,
    jump_score_same_contig_opposite_strand := -2,
    jump_score_inter_contig := -3,
    getJumpInfo := fun _ _ p => { idx := 0, len := 1, from_ := 0, score := p } }

/-- The reverse-strand twin of the demo contig. -/
def demoContigRev : ContigAligner :=
  { name := "chr1", is_forward := false, contig_idx := 1, seqLen := 4,
    circular := false,
    jump_score_same_contig_and_strand := -1,
    jump_score_same_contig_opposite_strand := -2,
    jump_score_inter_contig := -3,
    getJumpInfo := fun _ _ p => { idx := 1, len := 2, from_ := 3, score := p } }

/-- A two-contig aligner state holding the demo twins. -/
def demoMCA : MultiContigAligner :=
  { contigs := [demoContigFwd, demoContigRev],
    name_to_forward := [("chr1", 0)],
    name_to_revcomp := [("chr1", 1)] }

theorem demoMCA_wellFormed : WellFormed demoMCA := by
  constructor
  · intro c hc
    have : c = demoContigFwd ∨ c = demoContigRev := by
      simpa [demoMCA] using hc
    rcases this with rfl | rfl <;> decide
  · intro fwd nm idx h
    cases fwd
    · simp only [demoMCA, hashmapForStrand, mapLookup, if_neg, if_pos] at h
      split at h
      · rename_i heq
        refine ⟨demoContigRev, ?_, by simp [demoContigRev, ← heq], by simp [demoContigRev]⟩
        cases h
        rfl
      · cases h
    · simp only [demoMCA, hashmapForStrand, mapLookup, if_neg, if_pos] at h
      split at h
      · rename_i heq
        refine ⟨demoContigFwd, ?_, by simp [demoContigFwd, ← heq], by simp [demoContigFwd]⟩
        cases h
        rfl
      · cases h

/-- Witness for C7 at the concrete two-contig state. -/
theorem custom_flip_candidate_witness :
    (jumpInfoForOppositeStrand demoMCA (oppContigIdxFor demoMCA demoContigFwd) 3 = none ↔
      ¬ ∃ t ∈ demoMCA.contigs, t.name = demoContigFwd.name ∧
        t.is_forward = (!demoContigFwd.is_forward)) ∧
    (∀ idx, oppContigIdxFor demoMCA demoContigFwd = some idx →
      ∃ twin, demoMCA.contigs[idx]? = some twin ∧
        twin.name = demoContigFwd.name ∧
        twin.is_forward = (!demoContigFwd.is_forward) ∧
        jumpInfoForOppositeStrand demoMCA (oppContigIdxFor demoMCA demoContigFwd) 3 =
          some { twin.getJumpInfo twin.seqLen (3 - 1)
              twin.jump_score_same_contig_opposite_strand with
            idx := twin.contig_idx }) :=
  custom_flip_candidate demoMCA demoContigFwd 3 demoMCA_wellFormed

theorem mapLookup_cons_isSome (m : List (String × Nat)) (k : String) (v : Nat)
    (nm : String) (h : (mapLookup m nm).isSome = true) :
    (mapLookup ((k, v) :: m) nm).isSome = true := by
  unfold mapLookup
  split_ifs <;> simp [h]

theorem registerName_contigs (a : MultiContigAligner) (fwd : Bool) (nm : String)
    (idx : Nat) : (registerName a fwd nm idx).contigs = a.contigs := by
  cases fwd <;> rfl

theorem hashmapForStrand_registerName (a : MultiContigAligner) (fwd : Bool)
    (nm : String) (idx : Nat) (fwd' : Bool) :
    hashmapForStrand (registerName a fwd nm idx) fwd' =
      if fwd' = fwd then (nm, idx) :: hashmapForStrand a fwd'
      else hashmapForStrand a fwd' := by
  cases fwd <;> cases fwd' <;> simp [registerName, hashmapForStrand]

theorem hashmapForStrand_setContigs (a : MultiContigAligner)
    (cs : List ContigAligner) (fwd : Bool) :
    hashmapForStrand { a with contigs := cs } fwd = hashmapForStrand a fwd := by
  cases fwd <;> rfl

/-- C8: under the map/contig synchronisation invariant, `add_contig` fails
(panics) exactly when a contig with the same `(name, is_forward)` pair is
already registered; on success it appends the new contig (stamped with index
`contigs.len()`), registers its name in the map of its strand, preserves the
invariant, and keeps `(name, is_forward)` a unique key across the registered
contigs. -/
theorem add_contig_unique_key (a : MultiContigAligner) (r : AddContigRequest)
    (hwf : WellFormed a) :
    (addContig a r = none ↔
      ∃ c ∈ a.contigs, c.name = r.name ∧ c.is_forward = r.is_forward) ∧
    (∀ a', addContig a r = some a' →
      a'.contigs = a.contigs ++ [contigOfRequest r a.contigs.length] ∧
      mapLookup (hashmapForStrand a' r.is_forward) r.name = some a.contigs.length ∧
      WellFormed a' ∧
      (uniqueKeys a.contigs → uniqueKeys a'.contigs)) := by
  have hiff : (mapLookup (hashmapForStrand a r.is_forward) r.name).isSome = true ↔
      ∃ c ∈ a.contigs, c.name = r.name ∧ c.is_forward = r.is_forward := by
    constructor
    · intro h
      obtain ⟨idx, hidx⟩ := Option.isSome_iff_exists.mp h
      obtain ⟨c, hget, hnm, hfw⟩ := hwf.2 r.is_forward r.name idx hidx
      exact ⟨c, List.getElem?_mem hget, hnm, hfw⟩
    · rintro ⟨c, hc, hnm, hfw⟩
      have h1 := hwf.1 c hc
      rwa [hnm, hfw] at h1
  constructor
  · rw [← hiff]
    unfold addContig
    split_ifs with h
    · simp [h]
    · simp [h]
  · intro a' ha'
    unfold addContig at ha'
    by_cases h : (mapLookup (hashmapForStrand a r.is_forward) r.name).isSome = true
    · rw [if_pos h] at ha'
      cases ha'
    · rw [if_neg h] at ha'
      rw [Option.some.injEq] at ha'
      subst ha'
      refine ⟨?_, ?_, ?_, ?_⟩
      · rw [registerName_contigs]
      · rw [hashmapForStrand_registerName, if_pos rfl]
        simp [mapLookup]
      · constructor
        · -- first well-formedness clause for the updated aligner
          intro c hc
          rw [registerName_contigs] at hc
          rw [hashmapForStrand_registerName]
          rcases List.mem_append.mp hc with hcL | hcR
          · have hold := hwf.1 c hcL
            split_ifs with hfe
            · apply mapLookup_cons_isSome
              rwa [hashmapForStrand_setContigs]
            · rwa [hashmapForStrand_setContigs]
          · have hcr : c = contigOfRequest r a.contigs.length := by simpa using hcR
            subst hcr
            simp [mapLookup, contigOfRequest]
        · -- second well-formedness clause for the updated aligner
          intro fwd nm idx hlk
          rw [hashmapForStrand_registerName, hashmapForStrand_setContigs] at hlk
          rw [registerName_contigs]
          by_cases hfe : fwd = r.is_forward
          · rw [if_pos hfe] at hlk
            unfold mapLookup at hlk
            split_ifs at hlk with hname
            · rw [Option.some.injEq] at hlk
              subst hlk
              refine ⟨contigOfRequest r a.contigs.length,
                List.getElem?_concat_length _ _, ?_, ?_⟩
              · simp [contigOfRequest, hname]
              · simp [contigOfRequest, hfe]
            · obtain ⟨c, hget, hnm, hfw⟩ := hwf.2 fwd nm idx hlk
              have hlt : idx < a.contigs.length := (List.getElem?_eq_some.mp hget).1
              refine ⟨c, ?_, hnm, hfw⟩
              rw [List.getElem?_append]
              simp [hlt, hget]
          · rw [if_neg hfe] at hlk
            obtain ⟨c, hget, hnm, hfw⟩ := hwf.2 fwd nm idx hlk
            have hlt : idx < a.contigs.length := (List.getElem?_eq_some.mp hget).1
            refine ⟨c, ?_, hnm, hfw⟩
            rw [List.getElem?_append]
            simp [hlt, hget]
      · -- key uniqueness is preserved
        intro huk
        rw [registerName_contigs]
        unfold uniqueKeys at huk ⊢
        rw [List.pairwise_append]
        refine ⟨huk, by simp, ?_⟩
        intro x hx y hy
        have hyr : y = contigOfRequest r a.contigs.length := by simpa using hy
        subst hyr
        rintro ⟨hnm, hfw⟩
        have h1 := hwf.1 x hx
        rw [hnm, hfw] at h1
        simp only [contigOfRequest] at h1
        exact h (by exact h1)

/-- A request reusing the demo key (chr1, forward). -/
def demoReq : AddContigRequest :=
  { name := "chr1", is_forward := true, seqLen := 6, circular := false,
    jump_score_same_contig_and_strand := -1,
    jump_score_same_contig_opposite_strand := -2,
    jump_score_inter_contig := -3,
    getJumpInfo := fun _ _ p => { idx := 0, len := 1, from_ := 0, score := p } }

/-- Witness for C8 at the concrete two-contig state. -/
theorem add_contig_unique_key_witness :
    (addContig demoMCA demoReq = none ↔
      ∃ c ∈ demoMCA.contigs, c.name = demoReq.name ∧
        c.is_forward = demoReq.is_forward) ∧
    (∀ a', addContig demoMCA demoReq = some a' →
      a'.contigs = demoMCA.contigs ++
        [contigOfRequest demoReq demoMCA.contigs.length] ∧
      mapLookup (hashmapForStrand a' demoReq.is_forward) demoReq.name =
        some demoMCA.contigs.length ∧
      WellFormed a' ∧
      (uniqueKeys demoMCA.contigs → uniqueKeys a'.contigs)) :=
  add_contig_unique_key demoMCA demoReq demoMCA_wellFormed

theorem addContig_idxContiguous (a : MultiContigAligner) (r : AddContigRequest)
    (a' : MultiContigAligner) (h : addContig a r = some a')
    (hc : idxContiguous a) : idxContiguous a' := by
  unfold addContig at h
  by_cases hs : (mapLookup (hashmapForStrand a r.is_forward) r.name).isSome = true
  · rw [if_pos hs] at h
    cases h
  · rw [if_neg hs, Option.some.injEq] at h
    subst h
    intro k hk
    rw [registerName_contigs] at hk ⊢
    simp only [List.length_append, List.length_cons, List.length_nil] at hk
    by_cases hlt : k < a.contigs.length
    · obtain ⟨c, hget, hidx⟩ := hc k hlt
      refine ⟨c, ?_, hidx⟩
      rw [List.getElem?_append]
      simp [hlt, hget]
    · have hk' : k = a.contigs.length := by omega
      subst hk'
      exact ⟨contigOfRequest r a.contigs.length,
        List.getElem?_concat_length _ _, rfl⟩

theorem addAll_idxContiguous (reqs : List AddContigRequest)
    (a a' : MultiContigAligner) (h : addAll a reqs = some a')
    (hc : idxContiguous a) : idxContiguous a' := by
  induction reqs generalizing a with
  | nil =>
    unfold addAll at h
    rw [Option.some.injEq] at h
    subst h
    exact hc
  | cons r rest ih =>
    unfold addAll at h
    cases hadd : addContig a r with
    | none => rw [hadd] at h; cases h
    | some a1 =>
      rw [hadd] at h
      exact ih a1 h (addContig_idxContiguous a r a1 hadd hc)

theorem new_idxContiguous : idxContiguous MultiContigAligner.new := by
  intro k hk
  simp [MultiContigAligner.new] at hk

/-- C9: after any sequence of successful `add_contig` calls starting from the
empty aligner, the `k`-th registered contig's `contig_idx` equals `k`: the
indices are contiguous from 0 and equal insertion order, every `add_contig`
call preserving the invariant. -/
theorem contig_idx_equals_insertion_order (reqs : List AddContigRequest)
    (a' : MultiContigAligner)
    (h : addAll MultiContigAligner.new reqs = some a') : idxContiguous a' :=
  addAll_idxContiguous reqs MultiContigAligner.new a' h new_idxContiguous

/-- A second request on the reverse strand. -/
def demoReqRev : AddContigRequest :=
  { demoReq with is_forward := false }

/-- The state after adding the two demo requests to the empty aligner. -/
def demoAddedState : MultiContigAligner :=
  (addAll MultiContigAligner.new [demoReq, demoReqRev]).getD MultiContigAligner.new

/-- Witness for C9: the two-step build succeeds and is index-contiguous. -/
theorem contig_idx_equals_insertion_order_witness :
    idxContiguous demoAddedState :=
  contig_idx_equals_insertion_order [demoReq, demoReqRev] demoAddedState rfl

theorem contigIdxOrdered_iff (k : Nat) (l : List SingleContigAligner) :
    contigIdxOrdered k l = true ↔
      ∀ p, p < l.length → ∃ c, l[p]? = some c ∧ c.contig_idx = k + p := by
  induction l generalizing k with
  | nil => simp [contigIdxOrdered]
  | cons al rest ih =>
    simp only [contigIdxOrdered, Bool.and_eq_true, decide_eq_true_eq, ih]
    constructor
    · rintro ⟨h0, hrec⟩ p hp
      cases p with
      | zero => exact ⟨al, by simp, by simpa using h0⟩
      | succ q =>
        obtain ⟨c, hget, hidx⟩ := hrec q (by simpa using hp)
        exact ⟨c, by simpa using hget, by omega⟩
    · intro hall
      constructor
      · obtain ⟨c, hget, hidx⟩ := hall 0 (by simp)
        have hc : al = c := by simpa using hget
        subst hc
        omega
      · intro q hq
        obtain ⟨c, hget, hidx⟩ := hall (q + 1) (by simpa using hq)
        exact ⟨c, by simpa using hget, by omega⟩

theorem contigIdxOrdered_congr (k : Nat) (l l' : List SingleContigAligner)
    (h : l.map SingleContigAligner.contig_idx = l'.map SingleContigAligner.contig_idx) :
    contigIdxOrdered k l = contigIdxOrdered k l' := by
  induction l generalizing k l' with
  | nil =>
    cases l' with
    | nil => rfl
    | cons y ys => simp at h
  | cons x xs ih =>
    cases l' with
    | nil => simp at h
    | cons y ys =>
      simp only [List.map_cons, List.cons.injEq] at h
      obtain ⟨h1, h2⟩ := h
      simp [contigIdxOrdered, h1, ih (k + 1) ys h2]

/-- C10: `traceback` asserts at entry that the aligner slice is non-empty and
that each position holds the aligner with that `contig_idx`; the checks depend
only on the `contig_idx` sequence (not on any traceback cell), a failed check
yields the panic outcome, and the walk only produces an alignment when both
checks pass. -/
theorem traceback_asserts_contig_order (aligners : List SingleContigAligner)
    (n fuel : Nat) :
    (tracebackChecks aligners = true ↔
      (aligners ≠ [] ∧ ∀ k, k < aligners.length →
        ∃ c, aligners[k]? = some c ∧ c.contig_idx = k)) ∧
    (tracebackChecks aligners = false → traceback aligners n fuel = none) ∧
    (∀ result, traceback aligners n fuel = some result →
      tracebackChecks aligners = true) ∧
    (∀ aligners', aligners.map SingleContigAligner.contig_idx =
        aligners'.map SingleContigAligner.contig_idx →
      tracebackChecks aligners = tracebackChecks aligners') := by
  refine ⟨?_, ?_, ?_, ?_⟩
  · unfold tracebackChecks
    rw [Bool.and_eq_true, contigIdxOrdered_iff 0 aligners]
    simp [List.isEmpty_iff]
  · intro h
    simp [traceback, h]
  · intro result h
    cases hb : tracebackChecks aligners with
    | true => rfl
    | false => simp [traceback, hb] at h
  · intro aligners' hmap
    unfold tracebackChecks
    rw [contigIdxOrdered_congr 0 aligners aligners' hmap]
    have hlen : aligners.length = aligners'.length := by
      have := congrArg List.length hmap
      simpa using this
    cases aligners with
    | nil =>
      cases aligners' with
      | nil => rfl
      | cons y ys => simp at hlen
    | cons x xs =>
      cases aligners' with
      | nil => simp at hlen
      | cons y ys => rfl

end Stitch
